import Mathlib

/-!
Verification development for the graph builder of
`unknown_object_segmentation` (`src/src/Graph.cpp`, namespace `gc`,
class `Graph` with the two build entry points `BuildFromSVM` /
"BuildFromRelations" and `BuildFromPointCloud`).

The C++ code is embedded shallowly:
* machine floats become either plain reals (where the source can never
  produce a NaN) or the type `Fl` below (a real value or NaN) where the
  source checks `isnan`;
* the fallible vector access `rel_probability[0]` (undefined behavior on
  an empty vector) is embedded as an `Option`-returning access, so a
  build over a relation with an empty probability vector returns `none`;
* the mutable member state of `gc::Graph` (`nodes`, `relations`,
  `edges`) becomes an explicit `Graph` record that each build function
  consumes and returns; the retained `pcl_cloud` / `normals` pointers of
  the source are diagnostic only (never read outside a build call) and
  are not part of the record;
* the row-major structured point cloud and normal array become index
  functions; every array read performed by the source at an in-range
  cell is in bounds, so no `Option` is needed there.
-/

open Classical

/-- A C `float`/`double` value as observed by the source through `isnan`:
either NaN or an actual real value. -/
inductive Fl where
  | nan : Fl
  | val : ℝ → Fl

/-- The `isnan` test of the source. -/
def Fl.isNan : Fl → Bool
  | Fl.nan => true
  | Fl.val _ => false

/-- IEEE division as used by the source for `color_dist/max_color`.
A zero denominator gives NaN: in this program every divided numerator is
one of the color distances folded into `max_color`, hence bounded by the
denominator, so a zero denominator forces a zero numerator (`0/0 = NaN`;
the `x/0 = ±inf` case of IEEE arithmetic is unreachable here). -/
noncomputable def divF (a b : ℝ) : Fl :=
  if b = 0 then Fl.nan else Fl.val (a / b)

/-- IEEE `acos` folded with the source's NaN fallback: `acos` returns NaN
exactly on inputs outside `[-1, 1]`, and the source replaces a NaN angle
by the sentinel `1.57`. -/
noncomputable def acosOr157 (d : ℝ) : ℝ :=
  if -1 ≤ d ∧ d ≤ 1 then Real.arccos d else 1.57

/-- Modelled from the spec: the output record `gc::Edge`
`{a, b, type, w, w2}` (declared in the header
`unknown_objects_segmentation/Graph.h`, which is not part of `src/`).
`w2` is not assigned by the relation-based mode (indeterminate in the
source); the model leaves the field at its default `0` there and no
claim reads it in that mode. -/
structure Edge where
  a : ℕ
  b : ℕ
  type : ℤ
  w : Fl
  w2 : ℝ := 0

/-- Modelled from the spec: the input record `surface::Relation`
(declared in a header outside `src/`): two node indices, a ground-truth
label, a type tag and a probability vector whose index 0 is the merge
probability. -/
structure Relation where
  id_0 : ℕ
  id_1 : ℕ
  groundTruth : ℤ
  type : ℤ
  rel_probability : List ℝ

/-- Modelled from the spec: the fields of `pcl::PointXYZRGB` read by the
builder — the depth `z` (possibly NaN) and the three color bytes. The
`x`/`y` coordinates are never read by `Graph.cpp`. -/
structure PointXYZRGB where
  z : Fl
  r : ℕ
  g : ℕ
  b : ℕ

/-- Modelled from the spec: the fields of `pcl::Normal` read by the
builder — the three normal components and the curvature. -/
structure NormalPt where
  nx : ℝ
  ny : ℝ
  nz : ℝ
  curvature : ℝ

/-- The `Dot3` helper of `Graph.cpp` applied to two normals
(`v1[0]*v2[0] + v1[1]*v2[1] + v1[2]*v2[2]`). -/
def Dot3 (n0 n1 : NormalPt) : ℝ :=
  n0.nx * n1.nx + n0.ny * n1.ny + n0.nz * n1.nz

/-- The structured point cloud together with its normal array: a
`width × height` row-major grid; `pts i` / `nrm i` are the entries at
linear index `i` (the source only reads in-bounds indices at the cells
it visits, so the arrays are embedded as index functions). -/
structure Cloud where
  width : ℕ
  height : ℕ
  pts : ℕ → PointXYZRGB
  nrm : ℕ → NormalPt

/-- Modelled from the spec: `GetIdx(col, row)` — the row-major linear
index of the structured cloud (declared in the missing header; the spec
fixes the grid as a row-major structured array indexed by one linear
index). -/
def GetIdx (c : Cloud) (col row : ℕ) : ℕ :=
  row * c.width + col

/-- The mutable member state of `gc::Graph`: node count, relation list
and the edge vector that the build calls mutate. -/
structure Graph where
  nodes : ℕ
  relations : List Relation
  edges : List Edge

/-- The default constructor `Graph::Graph()`: zero nodes, cleared
relations (and an empty edge vector). -/
def Graph.init0 : Graph :=
  { nodes := 0, relations := [], edges := [] }

/-- The constructor `Graph::Graph(nrNodes, rel)`: stores the node count
and relation list (the edge vector starts empty). -/
def Graph.ofRel (nrNodes : ℕ) (rel : List Relation) : Graph :=
  { nodes := nrNodes, relations := rel, edges := [] }

/-- The relation synthesized by the connectivity check of
`Graph::BuildFromSVM` for an uncovered node `i`:
`id_0 = 0, id_1 = i, groundTruth = -1, type = 1`,
probability vector `[1.0, 0.0]`. -/
def synthRelation (i : ℕ) : Relation :=
  { id_0 := 0, id_1 := i, groundTruth := -1, type := 1,
    rel_probability := [1, 0] }

/-- The inner scan of the connectivity check: does some relation of the
list have `id_0 == 0 && id_1 == i`? -/
def hasRelTo (rels : List Relation) (i : ℕ) : Bool :=
  rels.any fun r => r.id_0 == 0 && r.id_1 == i

/-- One iteration of the connectivity check of `Graph::BuildFromSVM`:
if node `i` has no relation `0–i`, append the synthesized relation. -/
def repairStep (rels : List Relation) (i : ℕ) : List Relation :=
  if hasRelTo rels i then rels else rels ++ [synthRelation i]

/-- The connectivity check loop of `Graph::BuildFromSVM`: for every
`i` in `[1, nodes)`, scan the (growing) relation list and append a
synthesized relation when node `i` has none to node 0. -/
def connectivityRepair (nodes : ℕ) (rels : List Relation) : List Relation :=
  (List.range' 1 (nodes - 1)).foldl repairStep rels

/-- The edge emitted for one relation by `Graph::BuildFromSVM`:
`a = id_0, b = id_1, type = 1, w = rel_probability[0]`. The vector
access is fallible: on an empty probability vector the source performs
an out-of-bounds read (undefined behavior), embedded here as `none`. -/
def relEdge (r : Relation) : Option Edge :=
  (r.rel_probability.head?).map fun p =>
    { a := r.id_0, b := r.id_1, type := 1, w := Fl.val p }

/-- The edge-emission loop of `Graph::BuildFromSVM`: one edge per
relation, in relation order; fails if any probability vector is empty. -/
def svmEdges : List Relation → Option (List Edge)
  | [] => some []
  | r :: rs => do
    let e ← relEdge r
    let es ← svmEdges rs
    pure (e :: es)

/-- `Graph::BuildFromSVM`: run the connectivity check (mutating the
stored relation list), then append one edge per relation to the *not
cleared* edge vector; the outputs are the resulting edge vector and its
size. Returns `none` when some relation has an empty probability vector
(out-of-bounds read in the source). -/
def BuildFromSVM (g : Graph) : Option (Graph × List Edge × ℕ) :=
  let rels := connectivityRepair g.nodes g.relations
  (svmEdges rels).map fun newEdges =>
    let es := g.edges ++ newEdges
    ({ nodes := g.nodes, relations := rels, edges := es }, es, es.length)

/-- Euclidean RGB distance of two points with channels scaled by 255,
exactly as written in the first pass of `Graph::BuildFromPointCloud`
(the argument of `sqrt` is a sum of squares, hence never negative, so
the IEEE `sqrt` NaN case cannot occur). -/
noncomputable def cdist (p0 p1 : PointXYZRGB) : ℝ :=
  Real.sqrt (((p0.r : ℝ) / 255 - (p1.r : ℝ) / 255) * ((p0.r : ℝ) / 255 - (p1.r : ℝ) / 255) +
    ((p0.g : ℝ) / 255 - (p1.g : ℝ) / 255) * ((p0.g : ℝ) / 255 - (p1.g : ℝ) / 255) +
    ((p0.b : ℝ) / 255 - (p1.b : ℝ) / 255) * ((p0.b : ℝ) / 255 - (p1.b : ℝ) / 255))

/-- `color_dist[GetIdx(col,row)][k]` as written by the first pass of
`Graph::BuildFromPointCloud`: the distances to the right (`k=0`),
bottom (`k=1`), bottom-right (`k=2`) and bottom-left (`k=3`) neighbors;
at `col == 0` the bottom-left entry is the sentinel `1.0`. -/
noncomputable def colorDistArr (c : Cloud) (row col : ℕ) : ℕ → ℝ
  | 0 => cdist (c.pts (GetIdx c col row)) (c.pts (GetIdx c col row + 1))
  | 1 => cdist (c.pts (GetIdx c col row)) (c.pts (GetIdx c col row + c.width))
  | 2 => cdist (c.pts (GetIdx c col row)) (c.pts (GetIdx c col row + c.width + 1))
  | _ =>
    if col ≠ 0 then
      cdist (c.pts (GetIdx c col row)) (c.pts (GetIdx c col row + c.width - 1))
    else 1

/-- The color distances of one cell that feed the `max_color` update in
the first pass, in source order; the `col == 0` sentinel `1.0` is *not*
compared against `max_color` (the update sits inside the `col != 0`
branch). -/
noncomputable def cellDists (c : Cloud) (row col : ℕ) : List ℝ :=
  [colorDistArr c row col 0, colorDistArr c row col 1, colorDistArr c row col 2] ++
    (if col ≠ 0 then [colorDistArr c row col 3] else [])

/-- The running-maximum pattern `if (d > m) m = d` of the source, folded
over a list of candidates. -/
noncomputable def runMax : List ℝ → ℝ → ℝ
  | [], m => m
  | d :: l, m => runMax l (if d > m then d else m)

/-- The loop ranges of both passes of `Graph::BuildFromPointCloud`:
`row < height - 1`, `col < width - 1`, rows outer, as `(row, col)`
pairs in iteration order. -/
def cellList (c : Cloud) : List (ℕ × ℕ) :=
  (List.range (c.height - 1)).foldr
    (fun row acc => ((List.range (c.width - 1)).map fun col => (row, col)) ++ acc) []

/-- `max_color`: the global maximum color distance of the first pass
(with starting value `0.0`). -/
noncomputable def maxColor (c : Cloud) : ℝ :=
  runMax ((cellList c).foldr (fun rc acc => cellDists c rc.1 rc.2 ++ acc) []) 0

/-- `max_curv`: the curvature maximum computed (for a diagnostic print
only) at the top of `Graph::BuildFromPointCloud`, over the points with
valid depth. -/
noncomputable def maxCurvature (c : Cloud) : ℝ :=
  runMax (((List.range (c.width * c.height)).filter
    (fun i => !(c.pts i).z.isNan)).map fun i => (c.nrm i).curvature) 0

/-- The normal-angle weight `w2` of one directed neighbor pair: the
sentinel `1.57` when the source point's depth is NaN, otherwise
`acos(Dot3(normal[idx], normal[j]))` with the source's NaN fallback to
`1.57`. -/
noncomputable def w2At (c : Cloud) (i j : ℕ) : ℝ :=
  if (c.pts i).z.isNan then 1.57
  else acosOr157 (Dot3 (c.nrm i) (c.nrm j))

/-- The depth-continuity gate of `Graph::BuildFromPointCloud`:
`!isnan(z_i) && !isnan(z_j) && fabs(z_i - z_j) < z_adapt * z_i` — both
depths are actual values and their absolute difference is below
`z_adapt` times the source depth. -/
def depthGate (c : Cloud) (zAdapt : ℝ) (i j : ℕ) : Prop :=
  ∃ z0 z1, (c.pts i).z = Fl.val z0 ∧ (c.pts j).z = Fl.val z1 ∧ |z0 - z1| < zAdapt * z0

/-- Linear-index offset of direction `k` (right, bottom, bottom-right,
bottom-left) for grid width `w`. -/
def dirOff (w k : ℕ) : ℕ :=
  match k with
  | 0 => 1
  | 1 => w
  | 2 => w + 1
  | _ => w - 1

/-- The edge record assembled for direction `k` of a cell in the second
pass: `a = idx`, `b = idx + offset`, `type = 1`,
`w = color_dist[idx][k] / max_color`, `w2` the normal-angle weight of
the pair. -/
noncomputable def dirEdge (c : Cloud) (m : ℝ) (row col k : ℕ) : Edge :=
  { a := GetIdx c col row,
    b := GetIdx c col row + dirOff c.width k,
    type := 1,
    w := divF (colorDistArr c row col k) m,
    w2 := w2At c (GetIdx c col row) (GetIdx c col row + dirOff c.width k) }

/-- Overwrite only the `w` field of an edge record, keeping `a`, `b`,
`type` and `w2` (the source's `e.w = 1.0` on the reused edge variable). -/
def withW (e : Edge) (v : Fl) : Edge :=
  { a := e.a, b := e.b, type := e.type, w := v, w2 := e.w2 }

/-- The edges pushed for one cell `(row, col)` of the second pass of
`Graph::BuildFromPointCloud`, in source order (right, bottom,
bottom-right, bottom-left), each conditional on its depth gate. In the
bottom-left direction at `idx % width == 0` the source reuses the edge
variable of the bottom-right direction, overwriting only `w` with `1.0`
(so `b` and `w2` keep their bottom-right values) and gates on the
column-wrapped neighbor `idx + width - 1`. -/
noncomputable def cellEdges (c : Cloud) (zAdapt m : ℝ) (row col : ℕ) : List Edge :=
  (if depthGate c zAdapt (GetIdx c col row) (GetIdx c col row + 1) then
      [dirEdge c m row col 0] else []) ++
  (if depthGate c zAdapt (GetIdx c col row) (GetIdx c col row + c.width) then
      [dirEdge c m row col 1] else []) ++
  (if depthGate c zAdapt (GetIdx c col row) (GetIdx c col row + c.width + 1) then
      [dirEdge c m row col 2] else []) ++
  (if GetIdx c col row % c.width ≠ 0 then
    (if depthGate c zAdapt (GetIdx c col row) (GetIdx c col row + c.width - 1) then
        [dirEdge c m row col 3] else [])
  else
    (if depthGate c zAdapt (GetIdx c col row) (GetIdx c col row + c.width - 1) then
        [withW (dirEdge c m row col 2) (Fl.val 1)] else []))

/-- The full edge list built by `Graph::BuildFromPointCloud` (after
`edges.clear()`): `z_adapt = 0.01`, the two-pass algorithm — first
`max_color`, then the per-cell edge construction over the same cell
range. -/
noncomputable def pointCloudEdges (c : Cloud) : List Edge :=
  (cellList c).foldr (fun rc acc => cellEdges c 0.01 (maxColor c) rc.1 rc.2 ++ acc) []

/-- `Graph::BuildFromPointCloud`: clear the edge vector, rebuild it from
the cloud, and return the new vector and its size. -/
noncomputable def BuildFromPointCloud (g : Graph) (c : Cloud) : Graph × List Edge × ℕ :=
  let es := pointCloudEdges c
  ({ nodes := g.nodes, relations := g.relations, edges := es }, es, es.length)

/-- Number of edges of a list with the given endpoints `a`, `b`. -/
def countAB (l : List Edge) (a0 b0 : ℕ) : ℕ :=
  (l.filter fun e => e.a == a0 && e.b == b0).length

/-- A concrete input relation `0–1` with merge probability `0.9`
(the example of the spec, section 8). -/
def demoRelation : Relation :=
  { id_0 := 0, id_1 := 1, groundTruth := 1, type := 1, rel_probability := [0.9, 0.1] }

/-- A relation whose probability vector is empty (the input-contract
violation of claim C6). -/
def emptyProbRelation : Relation :=
  { id_0 := 0, id_1 := 0, groundTruth := 0, type := 1, rel_probability := [] }

/-- A one-node builder holding only the empty-probability relation. -/
def c6graph : Graph :=
  Graph.ofRel 1 [emptyProbRelation]

/-- A point at depth `1.0` with black color. -/
def blackPt : PointXYZRGB :=
  { z := Fl.val 1, r := 0, g := 0, b := 0 }

/-- A point at depth `1.0` with white color. -/
def whitePt : PointXYZRGB :=
  { z := Fl.val 1, r := 255, g := 255, b := 255 }

/-- The unit normal `(0, 0, 1)`. -/
def upNormal : NormalPt :=
  { nx := 0, ny := 0, nz := 1, curvature := 0 }

/-- The unit normal `(0, 0, -1)`. -/
def downNormal : NormalPt :=
  { nx := 0, ny := 0, nz := -1, curvature := 0 }

/-- A concrete 2×2 cloud: every depth is the valid value `1.0`; point 1
is white, the others black; the normal of point 1 is opposite to the
others (anti-parallel adjacent unit normals). -/
def cexCloud : Cloud :=
  { width := 2, height := 2,
    pts := fun i => if i == 1 then whitePt else blackPt,
    nrm := fun i => if i == 1 then downNormal else upNormal }

/-- The point of the spec's 3×2 example grid: depth `1.0`, a fixed
color shared by all points. -/
def gridPt : PointXYZRGB :=
  { z := Fl.val 1, r := 100, g := 100, b := 100 }

/-- The 3×2 example grid of the spec (claim C9): all points at depth
`1.0`, identical colors, identical unit normals. -/
def c9grid : Cloud :=
  { width := 3, height := 2, pts := fun _ => gridPt, nrm := fun _ => upNormal }

/-! Lemmas on the relation-based build (`Graph::BuildFromSVM`) -/

theorem hasRelTo_append (l1 l2 : List Relation) (i : ℕ) :
    hasRelTo (l1 ++ l2) i = (hasRelTo l1 i || hasRelTo l2 i) := by
  simp [hasRelTo, List.any_append]

theorem hasRelTo_eq_false_of_synth (l : List Relation) (i : ℕ)
    (h : ∀ r ∈ l, ∃ j, r = synthRelation j ∧ j ≠ i) : hasRelTo l i = false := by
  rw [hasRelTo, List.any_eq_false]
  intro r hr
  obtain ⟨j, rfl, hj⟩ := h r hr
  simp [synthRelation, hj]

theorem hasRelTo_true_iff (l : List Relation) (i : ℕ) :
    hasRelTo l i = true ↔ ∃ r ∈ l, r.id_0 = 0 ∧ r.id_1 = i := by
  simp [hasRelTo, List.any_eq_true]

/-- Core induction on the connectivity-check loop: starting from a base
list `rl` extended by already-synthesized relations `ex0` whose node
indices do not reappear in the pending index list `is`, the loop only
appends synthesized relations for exactly the pending indices that `rl`
does not cover. -/
theorem foldl_repair_spec : ∀ (is : List ℕ), is.Nodup → ∀ (rl ex0 : List Relation),
    (∀ r ∈ ex0, ∃ j, r = synthRelation j ∧ j ∉ is) →
    ∃ ex, is.foldl repairStep (rl ++ ex0) = (rl ++ ex0) ++ ex ∧
      (∀ r ∈ ex, ∃ i ∈ is, r = synthRelation i ∧ hasRelTo rl i = false) ∧
      (∀ i ∈ is, hasRelTo rl i = false → synthRelation i ∈ ex) ∧
      ex.length = (is.filter fun i => !(hasRelTo rl i)).length := by
  intro is
  induction is with
  | nil =>
    intro _ rl ex0 _
    exact ⟨[], by simp, by simp, by simp, by simp⟩
  | cons i t ih =>
    intro hnd rl ex0 h0
    rw [List.nodup_cons] at hnd
    have hx0 : hasRelTo ex0 i = false := by
      refine hasRelTo_eq_false_of_synth ex0 i fun r hr => ?_
      obtain ⟨j, rfl, hj⟩ := h0 r hr
      exact ⟨j, rfl, fun hji => hj (hji ▸ List.mem_cons_self i t)⟩
    rw [List.foldl_cons]
    by_cases h1 : hasRelTo rl i = true
    · have hstep : repairStep (rl ++ ex0) i = rl ++ ex0 := by
        rw [repairStep, hasRelTo_append, h1]
        simp
      rw [hstep]
      obtain ⟨ex, heq, hmem, hcov, hlen⟩ := ih hnd.2 rl ex0
        (fun r hr => by
          obtain ⟨j, rfl, hj⟩ := h0 r hr
          exact ⟨j, rfl, fun hjt => hj (List.mem_cons_of_mem i hjt)⟩)
      refine ⟨ex, heq, ?_, ?_, ?_⟩
      · intro r hr
        obtain ⟨i', hi', h⟩ := hmem r hr
        exact ⟨i', List.mem_cons_of_mem i hi', h⟩
      · intro i' hi' hfalse
        rcases List.mem_cons.mp hi' with rfl | hi't
        · rw [h1] at hfalse; cases hfalse
        · exact hcov i' hi't hfalse
      · rw [hlen, List.filter_cons]
        simp [h1]
    · rw [Bool.not_eq_true] at h1
      have hstep : repairStep (rl ++ ex0) i = rl ++ (ex0 ++ [synthRelation i]) := by
        rw [repairStep, hasRelTo_append, h1, hx0]
        simp
      rw [hstep]
      obtain ⟨ex, heq, hmem, hcov, hlen⟩ := ih hnd.2 rl (ex0 ++ [synthRelation i])
        (fun r hr => by
          rcases List.mem_append.mp hr with hr0 | hr1
          · obtain ⟨j, rfl, hj⟩ := h0 r hr0
            exact ⟨j, rfl, fun hjt => hj (List.mem_cons_of_mem i hjt)⟩
          · rcases List.mem_singleton.mp hr1 with rfl
            exact ⟨i, rfl, hnd.1⟩)
      refine ⟨synthRelation i :: ex, ?_, ?_, ?_, ?_⟩
      · rw [heq]; simp
      · intro r hr
        rcases List.mem_cons.mp hr with rfl | hrex
        · exact ⟨i, List.mem_cons_self i t, rfl, h1⟩
        · obtain ⟨i', hi', h⟩ := hmem r hrex
          exact ⟨i', List.mem_cons_of_mem i hi', h⟩
      · intro i' hi' hfalse
        rcases List.mem_cons.mp hi' with rfl | hi't
        · exact List.mem_cons_self _ _
        · exact List.mem_cons_of_mem _ (hcov i' hi't hfalse)
      · rw [List.filter_cons]
        simp [h1, hlen]

/-- The connectivity check appends exactly one synthesized relation per
node of `[1, N)` not already covered by a `0–i` relation. -/
theorem connectivityRepair_spec (N : ℕ) (rels : List Relation) :
    ∃ ex, connectivityRepair N rels = rels ++ ex ∧
      (∀ r ∈ ex, ∃ i, 1 ≤ i ∧ i < N ∧ r = synthRelation i ∧ hasRelTo rels i = false) ∧
      (∀ i, 1 ≤ i → i < N → hasRelTo rels i = false → synthRelation i ∈ ex) ∧
      ex.length = ((List.range' 1 (N - 1)).filter fun i => !(hasRelTo rels i)).length := by
  obtain ⟨ex, heq, hmem, hcov, hlen⟩ :=
    foldl_repair_spec (List.range' 1 (N - 1)) (List.nodup_range' 1 (N - 1) 1 (by norm_num))
      rels [] (by simp)
  rw [List.append_nil] at heq
  refine ⟨ex, heq, ?_, ?_, hlen⟩
  · intro r hr
    obtain ⟨i, hi, h⟩ := hmem r hr
    rw [List.mem_range'_1] at hi
    exact ⟨i, hi.1, by omega, h⟩
  · intro i h1 h2 hf
    exact hcov i (List.mem_range'_1.mpr ⟨h1, by omega⟩) hf

theorem relEdge_eq_some (r : Relation) (e : Edge) :
    relEdge r = some e ↔
      ∃ p, r.rel_probability.head? = some p ∧
        e = { a := r.id_0, b := r.id_1, type := 1, w := Fl.val p } := by
  rw [relEdge]
  cases h : r.rel_probability.head? with
  | none => simp
  | some p => simp [eq_comm]

theorem svmEdges_forall₂ : ∀ (rl : List Relation) (es : List Edge),
    svmEdges rl = some es →
    List.Forall₂ (fun (r : Relation) (e : Edge) =>
      e.a = r.id_0 ∧ e.b = r.id_1 ∧ e.type = 1 ∧
        ∃ p, r.rel_probability.head? = some p ∧ e.w = Fl.val p) rl es := by
  intro rl
  induction rl with
  | nil =>
    intro es h
    rw [svmEdges] at h
    cases h
    exact List.Forall₂.nil
  | cons r rs ih =>
    intro es h
    rw [svmEdges] at h
    cases he : relEdge r with
    | none => rw [he] at h; cases h
    | some e =>
      rw [he] at h
      cases hes : svmEdges rs with
      | none => rw [hes] at h; cases h
      | some tl =>
        rw [hes] at h
        cases h
        obtain ⟨p, hp, rfl⟩ := (relEdge_eq_some r e).mp he
        exact List.Forall₂.cons ⟨rfl, rfl, rfl, p, hp, rfl⟩ (ih tl hes)

theorem svmEdges_isSome (rl : List Relation)
    (h : ∀ r ∈ rl, r.rel_probability ≠ []) : ∃ es, svmEdges rl = some es := by
  induction rl with
  | nil => exact ⟨[], rfl⟩
  | cons r rs ih =>
    obtain ⟨tl, htl⟩ := ih fun r' hr' => h r' (List.mem_cons_of_mem r hr')
    have hr : r.rel_probability ≠ [] := h r (List.mem_cons_self r rs)
    cases hp : r.rel_probability.head? with
    | none => exact absurd (List.head?_eq_none_iff.mp hp) hr
    | some p =>
      refine ⟨{ a := r.id_0, b := r.id_1, type := 1, w := Fl.val p } :: tl, ?_⟩
      rw [svmEdges]
      rw [show relEdge r = some { a := r.id_0, b := r.id_1, type := 1, w := Fl.val p } from
        (relEdge_eq_some r _).mpr ⟨p, hp, rfl⟩, htl]
      rfl

theorem forall₂_exists_of_mem_left {R : Relation → Edge → Prop} :
    ∀ {l1 : List Relation} {l2 : List Edge}, List.Forall₂ R l1 l2 →
      ∀ a ∈ l1, ∃ b ∈ l2, R a b := by
  intro l1 l2 h
  induction h with
  | nil => intro a ha; cases ha
  | cons hr _ ih =>
    intro a ha
    rcases List.mem_cons.mp ha with rfl | hat
    · exact ⟨_, List.mem_cons_self _ _, hr⟩
    · obtain ⟨b, hb, hR⟩ := ih a hat
      exact ⟨b, List.mem_cons_of_mem _ hb, hR⟩

/-- Claim C1: after `BuildFromSVM` on `N` nodes (fresh builder), every
node `i` of `[1, N)` is touched by an edge to node 0, and the edge
count equals the input relation count plus the number of nodes of
`[1, N)` with no input relation `id_0 == 0 && id_1 == i` (hence is at
least the input relation count). -/
theorem buildFromSVM_star_connected_count (N : ℕ) (rels : List Relation)
    (hne : ∀ r ∈ rels, r.rel_probability ≠ []) :
    ∃ g' es n, BuildFromSVM (Graph.ofRel N rels) = some (g', es, n) ∧
      (∀ i, 1 ≤ i → i < N → ∃ e ∈ es, e.a = 0 ∧ e.b = i) ∧
      es.length = rels.length +
        ((List.range' 1 (N - 1)).filter fun i => !(hasRelTo rels i)).length ∧
      rels.length ≤ es.length := by
  obtain ⟨ex, heq, hmem, hcov, hlen⟩ := connectivityRepair_spec N rels
  have hne' : ∀ r ∈ connectivityRepair N rels, r.rel_probability ≠ [] := by
    intro r hr
    rw [heq] at hr
    rcases List.mem_append.mp hr with h | h
    · exact hne r h
    · obtain ⟨i, _, _, rfl, _⟩ := hmem r h
      simp [synthRelation]
  obtain ⟨es, hes⟩ := svmEdges_isSome _ hne'
  have hf2 := svmEdges_forall₂ _ es hes
  have hlen2 : (connectivityRepair N rels).length = es.length := hf2.length_eq
  refine ⟨{ nodes := N, relations := connectivityRepair N rels, edges := es },
    es, es.length, ?_, ?_, ?_, ?_⟩
  · simp only [BuildFromSVM, Graph.ofRel, hes, Option.map_some', List.nil_append]
  · intro i h1 h2
    have hrel : ∃ r ∈ connectivityRepair N rels, r.id_0 = 0 ∧ r.id_1 = i := by
      by_cases hc : hasRelTo rels i = true
      · obtain ⟨r, hr, h⟩ := (hasRelTo_true_iff rels i).mp hc
        exact ⟨r, heq ▸ List.mem_append_left ex hr, h⟩
      · rw [Bool.not_eq_true] at hc
        refine ⟨synthRelation i, heq ▸ List.mem_append_right rels (hcov i h1 h2 hc), rfl, rfl⟩
    obtain ⟨r, hr, hr0, hr1⟩ := hrel
    obtain ⟨e, he, hea, heb, _⟩ := forall₂_exists_of_mem_left hf2 r hr
    exact ⟨e, he, hea.trans hr0, heb.trans hr1⟩
  · rw [← hlen2, heq, List.length_append, hlen]
  · rw [← hlen2, heq, List.length_append]
    exact Nat.le_add_right _ _

/-- Claim C1 witness: `N = 3` with the single relation `0–1`. -/
theorem buildFromSVM_star_connected_count_witness :
    (∀ r ∈ [demoRelation], r.rel_probability ≠ []) ∧
    (∃ g' es n, BuildFromSVM (Graph.ofRel 3 [demoRelation]) = some (g', es, n) ∧
      (∀ i, 1 ≤ i → i < 3 → ∃ e ∈ es, e.a = 0 ∧ e.b = i) ∧
      es.length = [demoRelation].length +
        ((List.range' 1 (3 - 1)).filter fun i => !(hasRelTo [demoRelation] i)).length ∧
      [demoRelation].length ≤ es.length) :=
  ⟨by simp [demoRelation], buildFromSVM_star_connected_count 3 [demoRelation]
    (by simp [demoRelation])⟩

/-- Claim C5: the final relation list is the input list followed by the
synthesized relations (with the stated fields), and the emitted edges
correspond one-to-one, in order, to the final relations with
`a = id_0`, `b = id_1`, `type = 1` and `w` the unnormalized entry 0 of
the probability vector. -/
theorem buildFromSVM_one_edge_per_relation (N : ℕ) (rels : List Relation)
    (es : List Edge) (h : svmEdges (connectivityRepair N rels) = some es) :
    List.Forall₂ (fun (r : Relation) (e : Edge) =>
      e.a = r.id_0 ∧ e.b = r.id_1 ∧ e.type = 1 ∧
        ∃ p, r.rel_probability.head? = some p ∧ e.w = Fl.val p)
      (connectivityRepair N rels) es ∧
    ∃ ex, connectivityRepair N rels = rels ++ ex ∧
      ∀ r ∈ ex, r.id_0 = 0 ∧ 1 ≤ r.id_1 ∧ r.id_1 < N ∧ r.groundTruth = -1 ∧
        r.type = 1 ∧ r.rel_probability = [1, 0] ∧ hasRelTo rels r.id_1 = false := by
  refine ⟨svmEdges_forall₂ _ es h, ?_⟩
  obtain ⟨ex, heq, hmem, _, _⟩ := connectivityRepair_spec N rels
  refine ⟨ex, heq, ?_⟩
  intro r hr
  obtain ⟨i, h1, h2, rfl, hf⟩ := hmem r hr
  exact ⟨rfl, h1, h2, rfl, rfl, rfl, hf⟩

/-- Claim C5 witness: a fresh builder with two nodes and no input
relation synthesizes the relation `0–1` and emits its single edge. -/
theorem buildFromSVM_one_edge_per_relation_witness :
    List.Forall₂ (fun (r : Relation) (e : Edge) =>
      e.a = r.id_0 ∧ e.b = r.id_1 ∧ e.type = 1 ∧
        ∃ p, r.rel_probability.head? = some p ∧ e.w = Fl.val p)
      (connectivityRepair 2 [])
      [{ a := 0, b := 1, type := 1, w := Fl.val 1, w2 := 0 }] ∧
    ∃ ex, connectivityRepair 2 [] = [] ++ ex ∧
      ∀ r ∈ ex, r.id_0 = 0 ∧ 1 ≤ r.id_1 ∧ r.id_1 < 2 ∧ r.groundTruth = -1 ∧
        r.type = 1 ∧ r.rel_probability = [1, 0] ∧ hasRelTo [] r.id_1 = false :=
  buildFromSVM_one_edge_per_relation 2 []
    [{ a := 0, b := 1, type := 1, w := Fl.val 1, w2 := 0 }] rfl

/-- Claim C6: a build over a relation list containing an empty
probability vector does not produce an edge list — the fallible access
`rel_probability[0]` (out of bounds in the source) is the error. -/
theorem buildFromSVM_empty_probability_fails :
    BuildFromSVM c6graph = none := rfl

/-- Claim C4 counterexample: a second `BuildFromSVM` call on the same
builder re-emits over the retained edge vector — with the same current
inputs (`nodes`, `relations`) as a fresh builder it yields 2 edges
where the fresh builder yields 1, so the output does not depend only on
the current call's inputs. -/
theorem buildFromSVM_retains_edges_cex :
    ∃ p, BuildFromSVM (Graph.ofRel 2 []) = some p ∧
      ∃ q, BuildFromSVM p.1 = some q ∧
        ∃ s, BuildFromSVM (Graph.ofRel p.1.nodes p.1.relations) = some s ∧
          q.2.1.length = 2 ∧ s.2.1.length = 1 := by
  exact ⟨_, rfl, _, rfl, _, rfl, rfl, rfl⟩

/-- Claim C4 amended: `BuildFromPointCloud` discards any previously held
edge set (its output depends only on the cloud), while `BuildFromSVM`
appends its edges to the previously held edge set. -/
theorem build_prior_edges (g h : Graph) (c : Cloud) :
    (BuildFromPointCloud g c).2.1 = (BuildFromPointCloud h c).2.1 ∧
    (∀ out, BuildFromSVM g = some out → ∃ newE, out.2.1 = g.edges ++ newE) := by
  refine ⟨rfl, ?_⟩
  intro out hout
  rw [BuildFromSVM] at hout
  cases hsv : svmEdges (connectivityRepair g.nodes g.relations) with
  | none => rw [hsv] at hout; cases hout
  | some l =>
    rw [hsv] at hout
    cases hout
    exact ⟨l, rfl⟩

/-- Claim C4 amended witness: instantiated on the 2×2 cloud and on a
fresh two-node relation build. -/
theorem build_prior_edges_witness :
    (BuildFromPointCloud (Graph.ofRel 2 []) cexCloud).2.1 =
      (BuildFromPointCloud Graph.init0 cexCloud).2.1 ∧
    ∃ out, BuildFromSVM (Graph.ofRel 2 []) = some out ∧
      ∃ newE, out.2.1 = (Graph.ofRel 2 []).edges ++ newE :=
  ⟨(build_prior_edges (Graph.ofRel 2 []) Graph.init0 cexCloud).1,
   ⟨_, rfl, (build_prior_edges (Graph.ofRel 2 []) Graph.init0 cexCloud).2 _ rfl⟩⟩

/-! Lemmas on the geometry-based build (`Graph::BuildFromPointCloud`) -/

theorem mem_foldr_append {α β : Type} (f : α → List β) (l : List α) (x : β) :
    x ∈ l.foldr (fun a acc => f a ++ acc) [] ↔ ∃ a ∈ l, x ∈ f a := by
  induction l with
  | nil => simp
  | cons b t ih => simp [ih]

theorem mem_cellList (c : Cloud) (row col : ℕ) :
    (row, col) ∈ cellList c ↔ row < c.height - 1 ∧ col < c.width - 1 := by
  rw [cellList, mem_foldr_append]
  constructor
  · rintro ⟨r, hr, hmem⟩
    obtain ⟨col', hcol', heq⟩ := List.mem_map.mp hmem
    obtain ⟨rfl, rfl⟩ := Prod.mk.injEq .. ▸ heq
    exact ⟨List.mem_range.mp hr, List.mem_range.mp hcol'⟩
  · rintro ⟨h1, h2⟩
    exact ⟨row, List.mem_range.mpr h1,
      List.mem_map.mpr ⟨col, List.mem_range.mpr h2, rfl⟩⟩

theorem mem_pointCloudEdges (c : Cloud) (e : Edge) :
    e ∈ pointCloudEdges c ↔
      ∃ rc ∈ cellList c, e ∈ cellEdges c 0.01 (maxColor c) rc.1 rc.2 := by
  rw [pointCloudEdges, mem_foldr_append]

theorem le_runMax_init : ∀ (l : List ℝ) (m : ℝ), m ≤ runMax l m := by
  intro l
  induction l with
  | nil => intro m; exact le_refl m
  | cons d t ih =>
    intro m
    rw [runMax]
    refine le_trans ?_ (ih _)
    split_ifs with h
    · exact le_of_lt h
    · exact le_refl m

theorem le_runMax_of_mem : ∀ (l : List ℝ) (m d : ℝ), d ∈ l → d ≤ runMax l m := by
  intro l
  induction l with
  | nil => intro m d h; cases h
  | cons d' t ih =>
    intro m d h
    rcases List.mem_cons.mp h with rfl | ht
    · rw [runMax]
      refine le_trans ?_ (le_runMax_init t _)
      split_ifs with h'
      · exact le_refl d
      · exact le_of_not_lt h'
    · exact ih _ d ht

theorem maxColor_nonneg (c : Cloud) : 0 ≤ maxColor c :=
  le_runMax_init _ 0

theorem cellDists_le_maxColor (c : Cloud) (row col : ℕ)
    (h : (row, col) ∈ cellList c) (d : ℝ) (hd : d ∈ cellDists c row col) :
    d ≤ maxColor c := by
  rw [maxColor]
  exact le_runMax_of_mem _ 0 d ((mem_foldr_append _ _ _).mpr ⟨(row, col), h, hd⟩)

theorem cdist_nonneg (p0 p1 : PointXYZRGB) : 0 ≤ cdist p0 p1 :=
  Real.sqrt_nonneg _

theorem mem_ite_singleton {P : Prop} [Decidable P] (a e : Edge) :
    (e ∈ if P then [a] else []) ↔ P ∧ e = a := by
  split_ifs with h <;> simp [h]

theorem mem_cellEdges_iff (c : Cloud) (zA m : ℝ) (row col : ℕ) (e : Edge) :
    e ∈ cellEdges c zA m row col ↔
      (depthGate c zA (GetIdx c col row) (GetIdx c col row + 1) ∧
        e = dirEdge c m row col 0) ∨
      (depthGate c zA (GetIdx c col row) (GetIdx c col row + c.width) ∧
        e = dirEdge c m row col 1) ∨
      (depthGate c zA (GetIdx c col row) (GetIdx c col row + c.width + 1) ∧
        e = dirEdge c m row col 2) ∨
      (GetIdx c col row % c.width ≠ 0 ∧
        depthGate c zA (GetIdx c col row) (GetIdx c col row + c.width - 1) ∧
        e = dirEdge c m row col 3) ∨
      (GetIdx c col row % c.width = 0 ∧
        depthGate c zA (GetIdx c col row) (GetIdx c col row + c.width - 1) ∧
        e = withW (dirEdge c m row col 2) (Fl.val 1)) := by
  rw [cellEdges]
  split_ifs with h1 h2 h3 h4 h5 <;> simp_all

theorem a_of_mem_cellEdges (c : Cloud) (zA m : ℝ) (row col : ℕ) (e : Edge)
    (h : e ∈ cellEdges c zA m row col) : e.a = GetIdx c col row := by
  rcases (mem_cellEdges_iff c zA m row col e).mp h with
    ⟨_, rfl⟩ | ⟨_, rfl⟩ | ⟨_, rfl⟩ | ⟨_, _, rfl⟩ | ⟨_, _, rfl⟩ <;> rfl

theorem getIdx_inj (c : Cloud) {row col row' col' : ℕ} (hc : col < c.width)
    (hc' : col' < c.width) (h : GetIdx c col row = GetIdx c col' row') :
    row = row' ∧ col = col' := by
  have hw : 0 < c.width := by omega
  rw [GetIdx, GetIdx] at h
  have e1 : (row * c.width + col) % c.width = col := by
    rw [mul_comm, Nat.mul_add_mod, Nat.mod_eq_of_lt hc]
  have e2 : (row' * c.width + col') % c.width = col' := by
    rw [mul_comm, Nat.mul_add_mod, Nat.mod_eq_of_lt hc']
  have hcc : col = col' := by rw [← e1, ← e2, h]
  subst hcc
  refine ⟨Nat.eq_of_mul_eq_mul_right hw (by omega), rfl⟩

theorem getIdx_mod (c : Cloud) (row col : ℕ) (hc : col < c.width) :
    GetIdx c col row % c.width = col := by
  rw [GetIdx, mul_comm, Nat.mul_add_mod, Nat.mod_eq_of_lt hc]

theorem cellList_block_nodup (n : ℕ) : ∀ (rows : List ℕ), rows.Nodup →
    ((rows.foldr (fun row acc => ((List.range n).map fun col => (row, col)) ++ acc) []).Nodup ∧
     ∀ p ∈ rows.foldr (fun row acc => ((List.range n).map fun col => (row, col)) ++ acc) [],
       p.1 ∈ rows ∧ p.2 < n) := by
  intro rows
  induction rows with
  | nil => simp
  | cons r t ih =>
    intro hnd
    rw [List.nodup_cons] at hnd
    obtain ⟨ihn, ihm⟩ := ih hnd.2
    rw [List.foldr_cons]
    constructor
    · refine List.Nodup.append ((List.nodup_range n).map fun a b h => congrArg Prod.snd h) ihn ?_
      intro p hp hp'
      obtain ⟨col', _, heq⟩ := List.mem_map.mp hp
      have h1 : p.1 = r := by rw [← heq]
      exact hnd.1 (h1 ▸ (ihm p hp').1)
    · intro p hp
      rcases List.mem_append.mp hp with hb | hr
      · obtain ⟨col', hcol', heq⟩ := List.mem_map.mp hb
        refine ⟨?_, ?_⟩
        · rw [← heq]; exact List.mem_cons_self r t
        · rw [← heq]; exact List.mem_range.mp hcol'
      · obtain ⟨h1, h2⟩ := ihm p hr
        exact ⟨List.mem_cons_of_mem _ h1, h2⟩

theorem cellList_nodup (c : Cloud) : (cellList c).Nodup :=
  (cellList_block_nodup (c.width - 1) (List.range (c.height - 1))
    (List.nodup_range _)).1

theorem countAB_append (l1 l2 : List Edge) (a0 b0 : ℕ) :
    countAB (l1 ++ l2) a0 b0 = countAB l1 a0 b0 + countAB l2 a0 b0 := by
  simp [countAB, List.filter_append]

theorem countAB_eq_zero_of_a_ne (l : List Edge) (a0 b0 : ℕ)
    (h : ∀ e ∈ l, e.a ≠ a0) : countAB l a0 b0 = 0 := by
  rw [countAB, List.length_eq_zero, List.filter_eq_nil_iff]
  intro e he
  simp [h e he]

theorem countAB_singleton_eq {P : Prop} [Decidable P] (e : Edge) (a0 b0 : ℕ)
    (ha : e.a = a0) (hb : e.b = b0) :
    countAB (if P then [e] else []) a0 b0 = if P then 1 else 0 := by
  split_ifs with h <;> simp [countAB, ha, hb]

theorem countAB_singleton_ne {P : Prop} [Decidable P] (e : Edge) (a0 b0 : ℕ)
    (h : ¬(e.a = a0 ∧ e.b = b0)) :
    countAB (if P then [e] else []) a0 b0 = 0 := by
  split_ifs with hp
  · rw [countAB, List.length_eq_zero, List.filter_eq_nil_iff]
    intro x hx
    rcases List.mem_singleton.mp hx with rfl
    simpa using h
  · rfl

theorem countAB_foldr_single (c : Cloud) (zA m : ℝ) (b0 : ℕ) :
    ∀ (L : List (ℕ × ℕ)), L.Nodup → (∀ p ∈ L, p.2 < c.width) →
    ∀ row col, (row, col) ∈ L → col < c.width →
    countAB (L.foldr (fun rc acc => cellEdges c zA m rc.1 rc.2 ++ acc) [])
        (GetIdx c col row) b0 =
      countAB (cellEdges c zA m row col) (GetIdx c col row) b0 := by
  intro L
  induction L with
  | nil => intro _ _ row col h _; cases h
  | cons p t ih =>
    obtain ⟨pr, pc⟩ := p
    intro hnd hlt row col hmem hc
    rw [List.nodup_cons] at hnd
    rw [List.foldr_cons, countAB_append]
    rcases List.mem_cons.mp hmem with heq | hmt
    · obtain ⟨rfl, rfl⟩ := Prod.mk.injEq .. ▸ heq
      have hrest : countAB (t.foldr (fun rc acc => cellEdges c zA m rc.1 rc.2 ++ acc) [])
          (GetIdx c col row) b0 = 0 := by
        refine countAB_eq_zero_of_a_ne _ _ _ fun e he => ?_
        obtain ⟨⟨r0, c0⟩, hrc, hecell⟩ := (mem_foldr_append _ t e).mp he
        have hecell' : e ∈ cellEdges c zA m r0 c0 := hecell
        have hlt' : c0 < c.width := hlt (r0, c0) (List.mem_cons_of_mem _ hrc)
        rw [a_of_mem_cellEdges c zA m r0 c0 e hecell']
        intro hid
        obtain ⟨hr, hcq⟩ := getIdx_inj c hlt' hc hid
        subst hr
        subst hcq
        exact hnd.1 hrc
      rw [hrest]
      simp
    · have hblock : countAB (cellEdges c zA m pr pc) (GetIdx c col row) b0 = 0 := by
        refine countAB_eq_zero_of_a_ne _ _ _ fun e he => ?_
        have hlt' : pc < c.width := hlt (pr, pc) (List.mem_cons_self _ t)
        rw [a_of_mem_cellEdges c zA m pr pc e he]
        intro hid
        obtain ⟨hr, hcq⟩ := getIdx_inj c hlt' hc hid
        subst hr
        subst hcq
        exact hnd.1 hmt
      rw [hblock, ih hnd.2 (fun q hq => hlt q (List.mem_cons_of_mem _ hq)) row col hmt hc]
      simp


theorem depthGate_not_nan (c : Cloud) (zA : ℝ) (i j : ℕ)
    (h : depthGate c zA i j) : (c.pts i).z ≠ Fl.nan := by
  obtain ⟨z0, z1, hz0, _, _⟩ := h
  intro hn
  rw [hn] at hz0
  cases hz0

/-- The four per-cell edge counts by target endpoint: each direction's
edge appears in the cell's contribution exactly when its depth gate
holds; at `col == 0` the bottom-left special edge shares the endpoint
`idx + width + 1` with the bottom-right edge but is gated on
`idx + width - 1`. -/
theorem cellEdges_counts (c : Cloud) (zA m : ℝ) (row col : ℕ) (hw : 2 ≤ c.width)
    (hc : col < c.width - 1) :
    (countAB (cellEdges c zA m row col) (GetIdx c col row) (GetIdx c col row + 1) =
      if depthGate c zA (GetIdx c col row) (GetIdx c col row + 1) then 1 else 0) ∧
    (countAB (cellEdges c zA m row col) (GetIdx c col row) (GetIdx c col row + c.width) =
      if depthGate c zA (GetIdx c col row) (GetIdx c col row + c.width) then 1 else 0) ∧
    (countAB (cellEdges c zA m row col) (GetIdx c col row) (GetIdx c col row + c.width + 1) =
      (if depthGate c zA (GetIdx c col row) (GetIdx c col row + c.width + 1) then 1 else 0) +
      (if col = 0 ∧ depthGate c zA (GetIdx c col row) (GetIdx c col row + c.width - 1)
        then 1 else 0)) ∧
    (col ≠ 0 →
      countAB (cellEdges c zA m row col) (GetIdx c col row) (GetIdx c col row + c.width - 1) =
        if depthGate c zA (GetIdx c col row) (GetIdx c col row + c.width - 1)
          then 1 else 0) := by
  have hmod : GetIdx c col row % c.width = col := getIdx_mod c row col (by omega)
  refine ⟨?_, ?_, ?_, ?_⟩
  · rw [cellEdges, countAB_append, countAB_append, countAB_append]
    rw [countAB_singleton_eq _ _ _ (by simp [dirEdge]) (by simp [dirEdge, dirOff])]
    rw [countAB_singleton_ne _ _ _ (by simp only [dirEdge, dirOff]; omega)]
    rw [countAB_singleton_ne _ _ _ (by simp only [dirEdge, dirOff]; omega)]
    by_cases hcol : col = 0
    · subst hcol
      rw [hmod, if_neg (show ¬((0 : ℕ) ≠ 0) by omega)]
      rw [countAB_singleton_ne _ _ _ (by simp only [withW, dirEdge, dirOff]; omega)]
      simp
    · rw [hmod, if_pos hcol]
      rw [countAB_singleton_ne _ _ _ (by simp only [dirEdge, dirOff]; omega)]
      simp
  · rw [cellEdges, countAB_append, countAB_append, countAB_append]
    rw [countAB_singleton_ne _ _ _ (by simp only [dirEdge, dirOff]; omega)]
    rw [countAB_singleton_eq _ _ _ (by simp [dirEdge]) (by simp [dirEdge, dirOff])]
    rw [countAB_singleton_ne _ _ _ (by simp only [dirEdge, dirOff]; omega)]
    by_cases hcol : col = 0
    · subst hcol
      rw [hmod, if_neg (show ¬((0 : ℕ) ≠ 0) by omega)]
      rw [countAB_singleton_ne _ _ _ (by simp only [withW, dirEdge, dirOff]; omega)]
      simp
    · rw [hmod, if_pos hcol]
      rw [countAB_singleton_ne _ _ _ (by simp only [dirEdge, dirOff]; omega)]
      simp
  · rw [cellEdges, countAB_append, countAB_append, countAB_append]
    rw [countAB_singleton_ne _ _ _ (by simp only [dirEdge, dirOff]; omega)]
    rw [countAB_singleton_ne _ _ _ (by simp only [dirEdge, dirOff]; omega)]
    rw [countAB_singleton_eq _ _ _ (by simp [dirEdge]) (by simp only [dirEdge, dirOff]; omega)]
    by_cases hcol : col = 0
    · subst hcol
      rw [hmod, if_neg (show ¬((0 : ℕ) ≠ 0) by omega)]
      rw [countAB_singleton_eq _ _ _ (by simp [withW, dirEdge])
        (by simp only [withW, dirEdge, dirOff]; omega)]
      simp
    · rw [hmod, if_pos hcol]
      rw [countAB_singleton_ne _ _ _ (by simp only [dirEdge, dirOff]; omega)]
      simp [hcol]
  · intro hcol
    rw [cellEdges, countAB_append, countAB_append, countAB_append]
    rw [countAB_singleton_ne _ _ _ (by simp only [dirEdge, dirOff]; omega)]
    rw [countAB_singleton_ne _ _ _ (by simp only [dirEdge, dirOff]; omega)]
    rw [countAB_singleton_ne _ _ _ (by simp only [dirEdge, dirOff]; omega)]
    rw [hmod, if_pos hcol]
    rw [countAB_singleton_eq _ _ _ (by simp [dirEdge]) (by simp only [dirEdge, dirOff]; omega)]
    simp

theorem countAB_pointCloudEdges (c : Cloud) (row col : ℕ)
    (hr : row < c.height - 1) (hc : col < c.width - 1) (b0 : ℕ) :
    countAB (pointCloudEdges c) (GetIdx c col row) b0 =
      countAB (cellEdges c 0.01 (maxColor c) row col) (GetIdx c col row) b0 := by
  rw [pointCloudEdges]
  exact countAB_foldr_single c 0.01 (maxColor c) b0 (cellList c) (cellList_nodup c)
    (fun p hp => by
      have := (mem_cellList c p.1 p.2).mp (Prod.mk.eta ▸ hp)
      omega)
    row col ((mem_cellList c row col).mpr ⟨hr, hc⟩) (by omega)

/-- Claim C2: for every in-range cell and each of the four directions,
the corresponding edge is in the output exactly when both depths are
valid and `|z_0 - z_1| < 0.01 * z_0` for that direction's neighbor
(the `col == 0` bottom-left special case gating on the aliased neighbor
`idx + width - 1`); a point with NaN depth contributes no outgoing edge
at all. -/
theorem pointCloud_gate_characterization (c : Cloud) (hw : 2 ≤ c.width) (row col : ℕ)
    (hr : row < c.height - 1) (hc : col < c.width - 1) :
    (countAB (pointCloudEdges c) (GetIdx c col row) (GetIdx c col row + 1) =
      if depthGate c 0.01 (GetIdx c col row) (GetIdx c col row + 1) then 1 else 0) ∧
    (countAB (pointCloudEdges c) (GetIdx c col row) (GetIdx c col row + c.width) =
      if depthGate c 0.01 (GetIdx c col row) (GetIdx c col row + c.width) then 1 else 0) ∧
    (countAB (pointCloudEdges c) (GetIdx c col row) (GetIdx c col row + c.width + 1) =
      (if depthGate c 0.01 (GetIdx c col row) (GetIdx c col row + c.width + 1)
        then 1 else 0) +
      (if col = 0 ∧ depthGate c 0.01 (GetIdx c col row) (GetIdx c col row + c.width - 1)
        then 1 else 0)) ∧
    (col ≠ 0 →
      countAB (pointCloudEdges c) (GetIdx c col row) (GetIdx c col row + c.width - 1) =
        if depthGate c 0.01 (GetIdx c col row) (GetIdx c col row + c.width - 1)
          then 1 else 0) ∧
    ((c.pts (GetIdx c col row)).z = Fl.nan →
      ∀ e ∈ pointCloudEdges c, e.a ≠ GetIdx c col row) := by
  obtain ⟨h1, h2, h3, h4⟩ := cellEdges_counts c 0.01 (maxColor c) row col hw hc
  refine ⟨?_, ?_, ?_, ?_, ?_⟩
  · rw [countAB_pointCloudEdges c row col hr hc, h1]
  · rw [countAB_pointCloudEdges c row col hr hc, h2]
  · rw [countAB_pointCloudEdges c row col hr hc, h3]
  · intro hcol
    rw [countAB_pointCloudEdges c row col hr hc, h4 hcol]
  · intro hnan e he hea
    obtain ⟨⟨r0, c0⟩, hrc, hcell⟩ := (mem_pointCloudEdges c e).mp he
    have hcell' : e ∈ cellEdges c 0.01 (maxColor c) r0 c0 := hcell
    have hb := (mem_cellList c r0 c0).mp hrc
    have hid : GetIdx c c0 r0 = GetIdx c col row :=
      (a_of_mem_cellEdges c 0.01 (maxColor c) r0 c0 e hcell').symm.trans hea
    obtain ⟨hreq, hceq⟩ := getIdx_inj c (by omega) (by omega) hid
    subst hreq
    subst hceq
    rcases (mem_cellEdges_iff c 0.01 (maxColor c) r0 c0 e).mp hcell' with
      ⟨hg, _⟩ | ⟨hg, _⟩ | ⟨hg, _⟩ | ⟨_, hg, _⟩ | ⟨_, hg, _⟩ <;>
      exact depthGate_not_nan c 0.01 _ _ hg hnan

/-- Claim C2 witness: instantiated on the concrete 2×2 cloud at the cell
`(0, 0)`. -/
theorem pointCloud_gate_characterization_witness :
    (countAB (pointCloudEdges cexCloud) (GetIdx cexCloud 0 0) (GetIdx cexCloud 0 0 + 1) =
      if depthGate cexCloud 0.01 (GetIdx cexCloud 0 0) (GetIdx cexCloud 0 0 + 1)
        then 1 else 0) ∧
    (countAB (pointCloudEdges cexCloud) (GetIdx cexCloud 0 0)
        (GetIdx cexCloud 0 0 + cexCloud.width) =
      if depthGate cexCloud 0.01 (GetIdx cexCloud 0 0) (GetIdx cexCloud 0 0 + cexCloud.width)
        then 1 else 0) ∧
    (countAB (pointCloudEdges cexCloud) (GetIdx cexCloud 0 0)
        (GetIdx cexCloud 0 0 + cexCloud.width + 1) =
      (if depthGate cexCloud 0.01 (GetIdx cexCloud 0 0)
          (GetIdx cexCloud 0 0 + cexCloud.width + 1) then 1 else 0) +
      (if 0 = 0 ∧ depthGate cexCloud 0.01 (GetIdx cexCloud 0 0)
          (GetIdx cexCloud 0 0 + cexCloud.width - 1) then 1 else 0)) ∧
    (0 ≠ 0 →
      countAB (pointCloudEdges cexCloud) (GetIdx cexCloud 0 0)
          (GetIdx cexCloud 0 0 + cexCloud.width - 1) =
        if depthGate cexCloud 0.01 (GetIdx cexCloud 0 0)
          (GetIdx cexCloud 0 0 + cexCloud.width - 1) then 1 else 0) ∧
    ((cexCloud.pts (GetIdx cexCloud 0 0)).z = Fl.nan →
      ∀ e ∈ pointCloudEdges cexCloud, e.a ≠ GetIdx cexCloud 0 0) :=
  pointCloud_gate_characterization cexCloud (by decide) 0 0 (by decide) (by decide)

/-- Claim C8: at a `col == 0` cell, the bottom-left special case: the
output's count of edges at `(idx, idx + width + 1)` rises by one exactly
when the depth gate holds for the column-wrapped neighbor
`idx + width - 1`, and the emitted special edge carries the hardcoded
weight `1.0` and the *bottom-right* normal angle (the bottom-left angle
computation is skipped). -/
theorem bottomLeft_col0_hardcoded (c : Cloud) (hw : 2 ≤ c.width) (row : ℕ)
    (hr : row < c.height - 1) :
    (countAB (pointCloudEdges c) (GetIdx c 0 row) (GetIdx c 0 row + c.width + 1) =
      (if depthGate c 0.01 (GetIdx c 0 row) (GetIdx c 0 row + c.width + 1)
        then 1 else 0) +
      (if depthGate c 0.01 (GetIdx c 0 row) (GetIdx c 0 row + c.width - 1)
        then 1 else 0)) ∧
    (depthGate c 0.01 (GetIdx c 0 row) (GetIdx c 0 row + c.width - 1) →
      ∃ e ∈ pointCloudEdges c, e.a = GetIdx c 0 row ∧
        e.b = GetIdx c 0 row + c.width + 1 ∧ e.w = Fl.val 1 ∧
        e.w2 = w2At c (GetIdx c 0 row) (GetIdx c 0 row + c.width + 1)) := by
  have hc0 : (0 : ℕ) < c.width - 1 := by omega
  constructor
  · obtain ⟨_, _, h3, _⟩ := cellEdges_counts c 0.01 (maxColor c) row 0 hw hc0
    rw [countAB_pointCloudEdges c row 0 hr hc0, h3]
    simp
  · intro hg
    have hmod : GetIdx c 0 row % c.width = 0 := by
      rw [GetIdx]
      simp [Nat.mul_mod_left]
    refine ⟨withW (dirEdge c (maxColor c) row 0 2) (Fl.val 1),
      (mem_pointCloudEdges c _).mpr
        ⟨(row, 0), (mem_cellList c row 0).mpr ⟨hr, hc0⟩,
          (mem_cellEdges_iff c 0.01 (maxColor c) row 0 _).mpr
            (Or.inr (Or.inr (Or.inr (Or.inr ⟨hmod, hg, rfl⟩))))⟩,
      rfl, rfl, rfl, rfl⟩

/-- Claim C8 witness: instantiated on the concrete 2×2 cloud at row 0. -/
theorem bottomLeft_col0_hardcoded_witness :
    (countAB (pointCloudEdges cexCloud) (GetIdx cexCloud 0 0)
        (GetIdx cexCloud 0 0 + cexCloud.width + 1) =
      (if depthGate cexCloud 0.01 (GetIdx cexCloud 0 0)
          (GetIdx cexCloud 0 0 + cexCloud.width + 1) then 1 else 0) +
      (if depthGate cexCloud 0.01 (GetIdx cexCloud 0 0)
          (GetIdx cexCloud 0 0 + cexCloud.width - 1) then 1 else 0)) ∧
    (depthGate cexCloud 0.01 (GetIdx cexCloud 0 0)
        (GetIdx cexCloud 0 0 + cexCloud.width - 1) →
      ∃ e ∈ pointCloudEdges cexCloud, e.a = GetIdx cexCloud 0 0 ∧
        e.b = GetIdx cexCloud 0 0 + cexCloud.width + 1 ∧ e.w = Fl.val 1 ∧
        e.w2 = w2At cexCloud (GetIdx cexCloud 0 0) (GetIdx cexCloud 0 0 + cexCloud.width + 1)) :=
  bottomLeft_col0_hardcoded cexCloud (by decide) 0 (by decide)

/-- Claim C10: when the `col == 0` bottom-left gate (on the wrapped
neighbor `idx + width - 1`) passes, the last edge pushed for the cell is
the leftover bottom-right record: endpoints `(idx, idx + width + 1)`,
the bottom-right normal angle as `w2`, and only `w` overwritten to
`1.0`. -/
theorem bottomLeft_leftover_record (c : Cloud) (zA m : ℝ) (row : ℕ)
    (hgate : depthGate c zA (GetIdx c 0 row) (GetIdx c 0 row + c.width - 1)) :
    (cellEdges c zA m row 0).getLast? =
      some { a := GetIdx c 0 row, b := GetIdx c 0 row + c.width + 1, type := 1,
             w := Fl.val 1,
             w2 := w2At c (GetIdx c 0 row) (GetIdx c 0 row + c.width + 1) } := by
  have hmod : GetIdx c 0 row % c.width = 0 := by
    rw [GetIdx]
    simp [Nat.mul_mod_left]
  rw [cellEdges, hmod, if_neg (show ¬((0 : ℕ) ≠ 0) by omega), if_pos hgate]
  exact List.getLast?_concat _

/-- Claim C10 witness: instantiated on the concrete 2×2 cloud at row 0
(where the wrapped-neighbor gate holds). -/
theorem bottomLeft_leftover_record_witness :
    depthGate cexCloud 0.01 (GetIdx cexCloud 0 0) (GetIdx cexCloud 0 0 + cexCloud.width - 1) ∧
    (cellEdges cexCloud 0.01 (maxColor cexCloud) 0 0).getLast? =
      some { a := GetIdx cexCloud 0 0, b := GetIdx cexCloud 0 0 + cexCloud.width + 1,
             type := 1, w := Fl.val 1,
             w2 := w2At cexCloud (GetIdx cexCloud 0 0)
               (GetIdx cexCloud 0 0 + cexCloud.width + 1) } :=
  ⟨⟨1, 1, rfl, rfl, by norm_num⟩,
   bottomLeft_leftover_record cexCloud 0.01 (maxColor cexCloud) 0
     ⟨1, 1, rfl, rfl, by norm_num⟩⟩

/-! Weight bounds and concrete evaluations -/

theorem sentinel_le_pi : (1.57 : ℝ) ≤ Real.pi :=
  le_of_lt (lt_trans (by norm_num) Real.pi_gt_d6)

theorem w2At_bounds (c : Cloud) (i j : ℕ) : 0 ≤ w2At c i j ∧ w2At c i j ≤ Real.pi := by
  rw [w2At]
  split_ifs with h
  · exact ⟨by norm_num, sentinel_le_pi⟩
  · rw [acosOr157]
    split_ifs with h2
    · exact ⟨Real.arccos_nonneg _, Real.arccos_le_pi _⟩
    · exact ⟨by norm_num, sentinel_le_pi⟩

theorem colorDistArr_nonneg (c : Cloud) (row col : ℕ) :
    ∀ k, 0 ≤ colorDistArr c row col k
  | 0 => cdist_nonneg _ _
  | 1 => cdist_nonneg _ _
  | 2 => cdist_nonneg _ _
  | (n + 3) => by
    show 0 ≤ if col ≠ 0 then
      cdist (c.pts (GetIdx c col row)) (c.pts (GetIdx c col row + c.width - 1)) else 1
    split_ifs
    · exact cdist_nonneg _ _
    · norm_num

theorem divF_bounds (c : Cloud) (row col k : ℕ) (hm : maxColor c ≠ 0)
    (hmem : colorDistArr c row col k ∈ cellDists c row col)
    (hcl : (row, col) ∈ cellList c) :
    ∃ x, divF (colorDistArr c row col k) (maxColor c) = Fl.val x ∧ 0 ≤ x ∧ x ≤ 1 := by
  have hle := cellDists_le_maxColor c row col hcl _ hmem
  have hpos : 0 < maxColor c := lt_of_le_of_ne (maxColor_nonneg c) (Ne.symm hm)
  exact ⟨_, by rw [divF, if_neg hm],
    div_nonneg (colorDistArr_nonneg c row col k) (le_of_lt hpos),
    (div_le_one hpos).mpr hle⟩

/-- Claim C3 amended: every emitted edge's `w2` lies in `[0, π]` (the
`1.57` sentinel included, but `acos` of anti-parallel normals reaches
`π > 1.58`); and whenever the global maximum color distance is nonzero,
`w` is an actual value in `[0, 1]` (on a uniformly colored grid the
unguarded division makes `w` NaN instead). -/
theorem pointCloud_weight_bounds (c : Cloud) (e : Edge) (he : e ∈ pointCloudEdges c) :
    (0 ≤ e.w2 ∧ e.w2 ≤ Real.pi) ∧
    (maxColor c ≠ 0 → ∃ x, e.w = Fl.val x ∧ 0 ≤ x ∧ x ≤ 1) := by
  obtain ⟨⟨r0, c0⟩, hrc, hcell⟩ := (mem_pointCloudEdges c e).mp he
  have hcell' : e ∈ cellEdges c 0.01 (maxColor c) r0 c0 := hcell
  have hb := (mem_cellList c r0 c0).mp hrc
  rcases (mem_cellEdges_iff _ _ _ _ _ _).mp hcell' with
    ⟨_, rfl⟩ | ⟨_, rfl⟩ | ⟨_, rfl⟩ | ⟨hne, _, rfl⟩ | ⟨_, _, rfl⟩
  · exact ⟨w2At_bounds c _ _,
      fun hm => divF_bounds c r0 c0 0 hm (by simp [cellDists]) hrc⟩
  · exact ⟨w2At_bounds c _ _,
      fun hm => divF_bounds c r0 c0 1 hm (by simp [cellDists]) hrc⟩
  · exact ⟨w2At_bounds c _ _,
      fun hm => divF_bounds c r0 c0 2 hm (by simp [cellDists]) hrc⟩
  · have hc0 : c0 ≠ 0 := by
      intro h0
      rw [h0] at hne
      exact hne (getIdx_mod c r0 0 (by omega))
    exact ⟨w2At_bounds c _ _,
      fun hm => divF_bounds c r0 c0 3 hm (by simp [cellDists, hc0]) hrc⟩
  · exact ⟨w2At_bounds c _ _, fun _ => ⟨1, rfl, by norm_num, by norm_num⟩⟩

theorem cex_z (j : ℕ) : (cexCloud.pts j).z = Fl.val 1 := by
  show (if j == 1 then whitePt else blackPt).z = Fl.val 1
  cases j == 1 <;> rfl

theorem cex_gate (i j : ℕ) : depthGate cexCloud (0.01 : ℝ) i j :=
  ⟨1, 1, cex_z i, cex_z j, by rw [sub_self, abs_zero]; norm_num⟩

theorem cex_right_mem :
    dirEdge cexCloud (maxColor cexCloud) 0 0 0 ∈ pointCloudEdges cexCloud :=
  (mem_pointCloudEdges _ _).mpr ⟨(0, 0), (mem_cellList _ 0 0).mpr (by decide),
    (mem_cellEdges_iff _ _ _ 0 0 _).mpr (Or.inl ⟨cex_gate _ _, rfl⟩)⟩

theorem cex_w2_right : w2At cexCloud 0 1 = Real.pi := by
  show acosOr157 (Dot3 upNormal downNormal) = Real.pi
  have hd : Dot3 upNormal downNormal = -1 := by norm_num [Dot3, upNormal, downNormal]
  rw [hd, acosOr157, if_pos (by norm_num)]
  exact Real.arccos_neg_one

/-- Claim C3 counterexample: on the 2×2 cloud with anti-parallel
adjacent unit normals, the emitted right edge of cell `(0, 0)` carries
`w2 = acos(-1) = π > 1.58`, outside the claimed range `[0, 1.58]`. -/
theorem pointCloud_w2_exceeds_claimed_range :
    ∃ e ∈ pointCloudEdges cexCloud, (1.58 : ℝ) < e.w2 := by
  refine ⟨dirEdge cexCloud (maxColor cexCloud) 0 0 0, cex_right_mem, ?_⟩
  show (1.58 : ℝ) < w2At cexCloud 0 1
  rw [cex_w2_right]
  exact lt_trans (by norm_num) Real.pi_gt_d6

/-- Claim C3 amended witness: the bounds instantiated at the right edge
of the 2×2 cloud's cell `(0, 0)`. -/
theorem pointCloud_weight_bounds_witness :
    (0 ≤ (dirEdge cexCloud (maxColor cexCloud) 0 0 0).w2 ∧
      (dirEdge cexCloud (maxColor cexCloud) 0 0 0).w2 ≤ Real.pi) ∧
    (maxColor cexCloud ≠ 0 →
      ∃ x, (dirEdge cexCloud (maxColor cexCloud) 0 0 0).w = Fl.val x ∧ 0 ≤ x ∧ x ≤ 1) :=
  pointCloud_weight_bounds cexCloud _ cex_right_mem

theorem cdist_self (p : PointXYZRGB) : cdist p p = 0 := by
  rw [cdist]
  simp

theorem c9_cdist (i j : ℕ) : cdist (c9grid.pts i) (c9grid.pts j) = 0 :=
  cdist_self gridPt

theorem c9_maxColor : maxColor c9grid = 0 := by
  rw [maxColor, show cellList c9grid = [(0, 0), (0, 1)] from rfl]
  simp only [List.foldr_cons, List.foldr_nil, cellDists, colorDistArr, c9_cdist]
  norm_num [runMax]

theorem c9_gate (i j : ℕ) : depthGate c9grid (0.01 : ℝ) i j :=
  ⟨1, 1, rfl, rfl, by rw [sub_self, abs_zero]; norm_num⟩

theorem c9_gate_true (i j : ℕ) : depthGate c9grid (0.01 : ℝ) i j = True :=
  eq_true (c9_gate i j)

theorem c9_w2 (i j : ℕ) : w2At c9grid i j = 0 := by
  show acosOr157 (Dot3 upNormal upNormal) = 0
  have hd : Dot3 upNormal upNormal = 1 := by norm_num [Dot3, upNormal]
  rw [hd, acosOr157, if_pos (by norm_num)]
  exact Real.arccos_one

theorem c9_div_nan (x : ℝ) : divF x (maxColor c9grid) = Fl.nan := by
  rw [divF, if_pos c9_maxColor]

/-- Claim C7: the division `w = color_dist / max_color` is not guarded:
on the uniformly colored 3×2 grid the global maximum color distance is
`0` and the emitted right edge of cell `(0, 0)` carries the
division-by-zero result `0/0 = NaN` as its weight. -/
theorem uniform_color_division_by_zero :
    ∃ e ∈ pointCloudEdges c9grid, e.w = Fl.nan := by
  refine ⟨dirEdge c9grid (maxColor c9grid) 0 0 0,
    (mem_pointCloudEdges _ _).mpr ⟨(0, 0), (mem_cellList _ 0 0).mpr (by decide),
      (mem_cellEdges_iff _ _ _ 0 0 _).mpr (Or.inl ⟨c9_gate _ _, rfl⟩)⟩, ?_⟩
  exact c9_div_nan _

theorem c9_length : (pointCloudEdges c9grid).length = 8 := by
  rw [pointCloudEdges, show cellList c9grid = [(0, 0), (0, 1)] from rfl]
  simp only [List.foldr_cons, List.foldr_nil, cellEdges, c9_gate_true, if_true,
    show GetIdx c9grid 0 0 % c9grid.width = 0 from rfl,
    show GetIdx c9grid 1 0 % c9grid.width = 1 from rfl]
  norm_num

/-- Claim C9 counterexample: the spec's 3×2 uniform example grid
produces 8 edges, not the claimed 4. -/
theorem c9_grid_not_four_edges :
    (pointCloudEdges c9grid).length = 8 ∧ (pointCloudEdges c9grid).length ≠ 4 := by
  refine ⟨c9_length, ?_⟩
  rw [c9_length]
  omega

/-- Claim C9 amended: the 3×2 uniform grid yields exactly 8 edges (4
per interior-column cell, the `col == 0` wraparound special edge
included); every edge has `w2 = 0`; each edge's `w` is either NaN (the
unguarded `0/0` color division on a uniformly colored grid) or the
hardcoded `1.0` of the `col == 0` bottom-left special case, and the
special edge with `w = 1.0` and endpoints `(0, 4)` is present. -/
theorem c9_grid_eight_edges :
    (pointCloudEdges c9grid).length = 8 ∧
    (∀ e ∈ pointCloudEdges c9grid, e.w2 = 0 ∧ (e.w = Fl.nan ∨ e.w = Fl.val 1)) ∧
    ∃ e ∈ pointCloudEdges c9grid, e.a = 0 ∧ e.b = 4 ∧ e.w = Fl.val 1 := by
  refine ⟨c9_length, ?_, ?_⟩
  · intro e he
    obtain ⟨⟨r0, c0⟩, hrc, hcell⟩ := (mem_pointCloudEdges _ _).mp he
    have hcell' : e ∈ cellEdges c9grid 0.01 (maxColor c9grid) r0 c0 := hcell
    rcases (mem_cellEdges_iff _ _ _ _ _ _).mp hcell' with
      ⟨_, rfl⟩ | ⟨_, rfl⟩ | ⟨_, rfl⟩ | ⟨_, _, rfl⟩ | ⟨_, _, rfl⟩
    · exact ⟨c9_w2 _ _, Or.inl (c9_div_nan _)⟩
    · exact ⟨c9_w2 _ _, Or.inl (c9_div_nan _)⟩
    · exact ⟨c9_w2 _ _, Or.inl (c9_div_nan _)⟩
    · exact ⟨c9_w2 _ _, Or.inl (c9_div_nan _)⟩
    · exact ⟨c9_w2 _ _, Or.inr rfl⟩
  · refine ⟨withW (dirEdge c9grid (maxColor c9grid) 0 0 2) (Fl.val 1),
      (mem_pointCloudEdges _ _).mpr ⟨(0, 0), (mem_cellList _ 0 0).mpr (by decide),
        (mem_cellEdges_iff _ _ _ 0 0 _).mpr
          (Or.inr (Or.inr (Or.inr (Or.inr ⟨rfl, c9_gate _ _, rfl⟩))))⟩,
      rfl, rfl, rfl⟩
